import Mathlib

/-!
# epub2kobo: the key-addressed entry store, its sweeper and the upload path

A shallow embedding of `main.go`.  Go strings are Lean `String`s, sequences of
Unicode code points: the strings that are valid UTF-8, on which Go's `len` is
the UTF-8 byte count.  A Go string with a byte that is not valid UTF-8 has no
`String` of its own; `len` and the handlers that call it are modelled on valid
UTF-8 only.  `time.Time` values are integers counting nanoseconds, `time.Duration` is a saturating signed 64-bit nanosecond count.
Every handler is a function from the state before (the store and the files) to
its response, the state after and the store accesses it made.
-/

namespace Epub2Kobo

/-! ## Constants (`main.go`, lines 27-32) -/

def maxUploadSize : Nat := 800 * 1024 * 1024

def keyLength : Nat := 4

/-- One `time.Second`, in nanoseconds. -/
def second : Int := 1000000000

def keyTimeout : Int := 30 * second

/-- The constant `1 * time.Hour`. -/
def maxKeyAge : Int := 1 * (3600 * second)

/-! ## Go string primitives -/

/-- Go `len(s)`: the number of bytes of `s`, a string that is valid UTF-8. -/
def len (s : String) : Nat := s.utf8ByteSize

/-- Go `strings.HasPrefix`. -/
def hasPrefix (s pre : String) : Bool := pre.data.isPrefixOf s.data

/-- Go `strings.HasSuffix`. -/
def hasSuffix (s suf : String) : Bool := suf.data.isSuffixOf s.data

/-- Go `strings.TrimPrefix`. -/
def trimPrefix (s pre : String) : String :=
  if hasPrefix s pre then ⟨s.data.drop pre.data.length⟩ else s

/-- Go `strings.TrimSuffix`. -/
def trimSuffix (s suf : String) : String :=
  if hasSuffix s suf then ⟨s.data.take (s.data.length - suf.data.length)⟩ else s

/-- Go `strings.ToLower`, on the ASCII range (the source applies it to a
sanitized filename only, which is ASCII). -/
def toLower (s : String) : String := ⟨s.data.map Char.toLower⟩

/-- Go `unicode.IsLetter(r)` for `r < 128`, the only range on which the source
consults it. -/
def isLetter (r : Char) : Bool :=
  (65 ≤ r.toNat && r.toNat ≤ 90) || (97 ≤ r.toNat && r.toNat ≤ 122)

/-- Go `unicode.IsDigit(r)` for `r < 128`. -/
def isDigit (r : Char) : Bool := 48 ≤ r.toNat && r.toNat ≤ 57

/-- Go `unicode.IsSpace`: the Latin-1 spaces `\t \n \v \f \r ' ' U+0085 U+00A0`
and the code points with the Unicode White_Space property. -/
def isSpace (r : Char) : Bool :=
  let n := r.toNat
  n == 0x09 || n == 0x0A || n == 0x0B || n == 0x0C || n == 0x0D || n == 0x20 ||
  n == 0x85 || n == 0xA0 || n == 0x1680 || (0x2000 ≤ n && n ≤ 0x200A) ||
  n == 0x2028 || n == 0x2029 || n == 0x202F || n == 0x205F || n == 0x3000

/-- The class `\s` of Go's `regexp` (RE2 syntax): `[\t\n\f\r ]`. -/
def isRegexSpace (r : Char) : Bool :=
  r.toNat == 0x09 || r.toNat == 0x0A || r.toNat == 0x0C || r.toNat == 0x0D || r.toNat == 0x20

/-- The class of the pattern `\.`. -/
def isDot (r : Char) : Bool := r == '.'

/-- Worker of `replaceRuns`; `inRun` tells that the previous rune belonged to
the match being replaced. -/
def replaceRunsAux (p : Char → Bool) (c : Char) : Bool → List Char → List Char
  | _, [] => []
  | inRun, x :: xs =>
    if p x then
      (if inRun then replaceRunsAux p c true xs else c :: replaceRunsAux p c true xs)
    else x :: replaceRunsAux p c false xs

/-- Go `regexp.MustCompile("X+").ReplaceAllString(s, c)` for a character class
`X`: matches are the maximal runs of `X` runes (leftmost, greedy, not
overlapping) and each is replaced by the single rune `c`. -/
def replaceRuns (p : Char → Bool) (c : Char) (s : String) : String :=
  ⟨replaceRunsAux p c false s.data⟩

/-- Go `strings.TrimSpace`: drops leading and trailing `unicode.IsSpace` runes. -/
def trimSpace (s : String) : String :=
  ⟨(s.data.dropWhile isSpace).rdropWhile isSpace⟩

/-- Go `filepath.Base` with separator `/` (the binary is built for Linux). -/
def filepathBase (path : String) : String :=
  if path = "" then "."
  else
    -- Strip trailing slashes.
    let path := path.data.rdropWhile (fun r => r == '/')
    -- Find the last element.
    let path := path.rtakeWhile (fun r => r != '/')
    -- If empty now, it had only slashes.
    if path = [] then "/" else ⟨path⟩

/-- Go `filepath.Join(dir, elem)` for a clean relative `dir` without trailing
slash and an `elem` that has no separator and is none of the empty string, `.`
and `..`: `Clean` leaves `dir/elem` as it is.  `handleUpload` calls it with
`uploadsDir` = `uploads` and an element `key_filename`, whose first four runes
are a validated key and whose remainder is a sanitized filename. -/
def filepathJoin (dir elem : String) : String := dir ++ "/" ++ elem

/-! ## Keys (`main.go`, lines 341-354) -/

/-- The alphabet of `generateKey`. -/
def chars : String := "abcdefghijklmnopqrstuvwxyz0123456789"

/-- Source `generateKey`.  `rnd` is what `rand.Read` delivers: byte `i` of the
zero-initialised buffer `b` becomes `rnd[i]` (kept zero if the source is
short). -/
def generateKey (rnd : List Nat) : String :=
  let b : List Nat := (List.range keyLength).map (fun i => rnd.getD i 0 % 256)
  ⟨b.map (fun x => chars.data.getD (x % (len chars % 256)) 'a')⟩

/-- One rune of the class `[a-z0-9]`. -/
def isKeyChar (c : Char) : Bool :=
  (97 ≤ c.toNat && c.toNat ≤ 122) || (48 ≤ c.toNat && c.toNat ≤ 57)

/-- Source `isValidKey`: `regexp.MatchString("^[a-z0-9]+$", key)`; in Go `$`
matches at the end of the text only. -/
def isValidKey (key : String) : Bool :=
  !key.data.isEmpty && key.data.all isKeyChar

/-! ## Filenames (`main.go`, lines 356-384) -/

/-- The body of the rune loop of `sanitizeFilename`: what one rune appends to
`result` (`none`: nothing). -/
def keepRune (r : Char) : Option Char :=
  if r.toNat < 128 && (isLetter r || isDigit r || r == '.' || r == '-' || r == '_' || r == ' ')
  then some r
  else if r == '–' || r == '—' then some '-'
  else if isSpace r then some ' '
  else none

/-- Source `sanitizeFilename`.  Its loop ranges over runes; on a byte that is not
valid UTF-8 the loop of the source yields U+FFFD, which `keepRune` drops like
any other rune outside its three cases. -/
def sanitizeFilename (filename : String) : String :=
  -- Remove path components
  let filename := filepathBase filename
  -- Replace non-ASCII with transliteration
  let result : List Char := filename.data.filterMap keepRune
  let sanitized : String := ⟨result⟩
  -- Remove multiple spaces/dots
  let sanitized := replaceRuns isRegexSpace ' ' sanitized
  let sanitized := replaceRuns isDot '.' sanitized
  let sanitized := trimSpace sanitized
  if sanitized = "" then "book" else sanitized

/-- The characters a sanitized filename is made of. -/
def isNameChar (c : Char) : Bool :=
  isLetter c || isDigit c || c == '.' || c == '-' || c == '_' || c == ' '

/-- No two adjacent runes of a text are both in the class `q`. -/
def NoAdjacent (q : Char → Bool) (l : List Char) : Prop :=
  List.Chain' (fun x y => ¬ (q x = true ∧ q y = true)) l

/-- What `sanitizeFilename` establishes of the runes of its result. -/
def Sanitized (l : List Char) : Prop :=
  l ≠ [] ∧ (∀ c ∈ l, isNameChar c = true) ∧ NoAdjacent isDot l ∧ NoAdjacent isRegexSpace l ∧
    l.head? ≠ some ' ' ∧ l.getLast? ≠ some ' '

/-! ## Time -/

/-- The largest `time.Duration`, `1<<63 - 1` nanoseconds. -/
def maxDuration : Int := 9223372036854775807

/-- The smallest `time.Duration`, `-1 << 63` nanoseconds. -/
def minDuration : Int := -9223372036854775808

/-- Go `t.Sub(u)`: the duration `t - u`, or the largest (smallest) duration if
the difference exceeds what a `Duration` holds. -/
def sub (t u : Int) : Int :=
  if t - u > maxDuration then maxDuration
  else if t - u < minDuration then minDuration
  else t - u

/-! ## The server state (`main.go`, lines 34-47) -/

/-- Source `FileEntry`; the mutex `mu` has no content in a sequential step. -/
structure FileEntry where
  Key : String
  Filename : String
  Path : String
  Converted : Bool
  CreatedAt : Int
  LastSeen : Int
  deriving DecidableEq, Repr

/-- The field `store`: a `sync.Map` from keys to entries, a finite map with at
most one entry per key. -/
abbrev Store := AList (fun _ : String => FileEntry)

/-- The regular files of the filesystem: path and content (bytes). -/
abbrev Files := AList (fun _ : String => List Nat)

/-- The mutable state the handlers act on: the store of the `Server` and the
filesystem. -/
structure State where
  store : Store
  files : Files

/-- The field `uploadsDir` of the one `Server` that `main` builds. -/
def uploadsDir : String := "uploads"

/-- The state at process start: nothing stored, no file uploaded. -/
def State.empty : State := ⟨∅, ∅⟩

/-- One access to the store by a handler. -/
inductive StoreOp where
  | load (key : String)
  | store (key : String)
  | delete (key : String)
  deriving DecidableEq, Repr

/-- What a handler writes to the `http.ResponseWriter`. -/
inductive Response where
  /-- The call `http.Error(w, msg, code)`. -/
  | httpError (code : Nat) (msg : String)
  /-- JSON `success: true` with `filename` and `key`. -/
  | uploadOk (filename key : String)
  /-- JSON with the single field `error`. -/
  | statusError (msg : String)
  /-- JSON `ready: true` with `filename` and `converted`. -/
  | statusReady (filename : String) (converted : Bool)
  /-- The file content, sent as attachment `filename`. -/
  | served (filename : String) (content : List Nat)
  deriving DecidableEq, Repr

/-- The call `http.NotFound(w, r)`. -/
def notFound : Response := .httpError 404 "404 page not found"

/-- The result of one handler call: the response, the state it leaves and the
store accesses it made, in order. -/
structure Outcome where
  resp : Response
  state : State
  ops : List StoreOp

/-! ## Upload (`main.go`, lines 129-226, 386-419) -/

/-- The bytes of an ASCII string. -/
def bytesOf (s : String) : List Nat := s.data.map Char.toNat

/-- Source `isEPUB`, on the content of the uploaded file (read from offset 0). -/
def isEPUB (file : List Nat) : Bool :=
  let buffer := file.take 58
  let n := buffer.length
  if n < 58 then false
  else
    -- Check PK signature and "mimetype" string
    if buffer.getD 0 0 == 0x50 && buffer.getD 1 0 == 0x4B &&
        (buffer.drop 30).take 8 == bytesOf "mimetype" &&
        (buffer.drop 38).take 20 == bytesOf "application/epub+zip" then true
    else false

/-- Source `convertToKepub`.  `lookPathOk`: `exec.LookPath` finds `kepubify`;
`run`: the outcome of `cmd.Run()`, the content kepubify writes to `kepubPath`
on success, `none` on failure (nothing is left behind then). -/
def convertToKepub (files : Files) (epubPath : String) (lookPathOk : Bool)
    (run : Option (List Nat)) : String × Files :=
  -- Check if kepubify exists
  if !lookPathOk then ("", files)
  else
    let kepubPath := trimSuffix epubPath ".epub" ++ ".kepub.epub"
    match run with
    | none => ("", files)
    | some out => (kepubPath, files.insert kepubPath out)

/-- An upload request as `handleUpload` reads it. -/
structure UploadRequest where
  /-- The field `r.Method`. -/
  method : String
  /-- Whether `r.ParseMultipartForm(maxUploadSize)` succeeds. -/
  formOk : Bool
  /-- The value `r.FormValue("key")`. -/
  key : String
  /-- The result of `r.FormFile("file")`: `header.Filename` and the content. -/
  file : Option (String × List Nat)
  /-- The value `r.FormValue("kepubify")`. -/
  kepubify : String

/-- What the environment answers during one upload. -/
structure UploadEnv where
  /-- The result of `http.DetectContentType(buffer)`. -/
  mimeType : String
  /-- Whether `os.Create(tempPath)` succeeds. -/
  createOk : Bool
  /-- Whether `io.Copy(destFile, file)` succeeds. -/
  copyOk : Bool
  /-- Whether `os.Remove(tempPath)` succeeds. -/
  removeOk : Bool
  /-- Whether `exec.LookPath("kepubify")` succeeds. -/
  lookPathOk : Bool
  /-- The outcome of running kepubify. -/
  kepubifyRun : Option (List Nat)
  /-- The first reading `time.Now()`, for `CreatedAt`. -/
  now : Int
  /-- The second reading `time.Now()`, for `LastSeen`. -/
  now2 : Int

/-- The sanitizing block of `handleUpload` (lines 174-178): the value of the
variable `filename` after it. -/
def uploadName (headerFilename : String) : String :=
  let filename := sanitizeFilename headerFilename
  if !hasSuffix (toLower filename) ".epub" then filename ++ ".epub" else filename

/-- The value of the variable `tempPath` of `handleUpload` (line 181). -/
def uploadPath (key headerFilename : String) : String :=
  filepathJoin uploadsDir (key ++ "_" ++ uploadName headerFilename)

/-- The variables `finalPath`, `converted` and `filename` of `handleUpload` after
the conversion block, and the files it leaves. -/
structure Conversion where
  finalPath : String
  converted : Bool
  filename : String
  files : Files

/-- The conversion block of `handleUpload` (lines 195-206). -/
def convertBlock (r : UploadRequest) (env : UploadEnv) (files : Files)
    (tempPath filename : String) : Conversion :=
  -- Check if kepubify conversion requested
  if r.kepubify == "on" then
    let res := convertToKepub files tempPath env.lookPathOk env.kepubifyRun
    if res.1 != "" then
      ⟨res.1, true, trimSuffix filename ".epub" ++ ".kepub.epub",
        if env.removeOk then res.2.erase tempPath else res.2⟩
    else ⟨tempPath, false, filename, res.2⟩
  else ⟨tempPath, false, filename, files⟩

/-- Source `Server.handleUpload`. -/
def handleUpload (s : State) (r : UploadRequest) (env : UploadEnv) : Outcome :=
  if r.method != "POST" then ⟨.httpError 405 "Method not allowed", s, []⟩
  else if !r.formOk then ⟨.httpError 400 "File too large or invalid", s, []⟩
  else if len r.key != keyLength || !isValidKey r.key then
    ⟨.httpError 400 "Invalid key", s, []⟩
  else
    match r.file with
    | none => ⟨.httpError 400 "No file uploaded", s, []⟩
    | some (headerFilename, file) =>
      -- Validate EPUB mime type; reading an empty file yields io.EOF
      if file.isEmpty then ⟨.httpError 400 "Cannot read file", s, []⟩
      else if !hasPrefix env.mimeType "application/epub+zip" &&
          !hasPrefix env.mimeType "application/zip" && !isEPUB file then
        ⟨.httpError 400 "Only EPUB files are allowed", s, []⟩
      -- Save uploaded file
      else if !env.createOk then ⟨.httpError 500 "Failed to save file", s, []⟩
      else if !env.copyOk then
        ⟨.httpError 500 "Failed to save file",
          ⟨s.store,
            if env.removeOk then
              (s.files.insert (uploadPath r.key headerFilename) []).erase
                (uploadPath r.key headerFilename)
            else s.files.insert (uploadPath r.key headerFilename) []⟩, []⟩
      else
        let conv := convertBlock r env
          ((s.files.insert (uploadPath r.key headerFilename) []).insert
            (uploadPath r.key headerFilename) file)
          (uploadPath r.key headerFilename) (uploadName headerFilename)
        -- Store file entry
        ⟨.uploadOk conv.filename r.key,
          ⟨s.store.insert r.key
              { Key := r.key, Filename := conv.filename, Path := conv.finalPath,
                Converted := conv.converted, CreatedAt := env.now, LastSeen := env.now2 },
            conv.files⟩,
          [.store r.key]⟩

/-! ## Status and download (`main.go`, lines 228-306) -/

/-- Source `Server.handleStatus`; `urlPath` is `r.URL.Path`, `now` the reading
of `time.Now()`. -/
def handleStatus (s : State) (urlPath : String) (now : Int) : Outcome :=
  let key := trimPrefix urlPath "/status/"
  if len key != keyLength then ⟨.httpError 400 "Invalid key", s, []⟩
  else
    match s.store.lookup key with
    | none => ⟨.statusError "Key not found or expired", s, [.load key]⟩
    | some entry =>
      let entry := { entry with LastSeen := now }
      ⟨.statusReady entry.Filename entry.Converted, ⟨s.store.insert key entry, s.files⟩,
        [.load key]⟩

/-- Source `Server.handleDownload`; `urlPath` is `r.URL.Path`, `queryKey` is
`r.URL.Query().Get("key")`.  Opening the file fails when it does not exist;
`file.Stat()` on the file just opened succeeds. -/
def handleDownload (s : State) (urlPath : String) (queryKey : String) (now : Int) : Outcome :=
  let filename := trimPrefix urlPath "/"
  if filename = "" then ⟨notFound, s, []⟩
  else
    let key := queryKey
    if len key != keyLength then ⟨notFound, s, []⟩
    else
      match s.store.lookup key with
      | none => ⟨notFound, s, [.load key]⟩
      | some entry =>
        -- Update last seen
        let entry := { entry with LastSeen := now }
        let s : State := ⟨s.store.insert key entry, s.files⟩
        -- Verify filename matches
        if entry.Filename != filename then ⟨notFound, s, [.load key]⟩
        else
          -- Serve file
          match s.files.lookup entry.Path with
          | none => ⟨notFound, s, [.load key]⟩
          | some content => ⟨.served entry.Filename content, s, [.load key]⟩

/-! ## Cleanup (`main.go`, lines 308-339) -/

/-- The condition under which the sweeper removes an entry. -/
def isExpired (now : Int) (entry : FileEntry) : Bool :=
  decide (sub now entry.LastSeen > keyTimeout) || decide (sub now entry.CreatedAt > maxKeyAge)

/-- The callback that `cleanupRoutine` passes to `store.Range`, applied to one
key and value.  `rmOk path` tells whether `os.Remove(path)` succeeds. -/
def cleanupVisit (now : Int) (rmOk : String → Bool) (s : State)
    (kv : Sigma (fun _ : String => FileEntry)) : State :=
  let entry := kv.2
  -- Remove if inactive for 30s or older than 1 hour
  if isExpired now entry then
    ⟨s.store.erase kv.1, if rmOk entry.Path then s.files.erase entry.Path else s.files⟩
  else s

/-- One tick of source `Server.cleanupRoutine` (one round of its loop), as one
atomic step at time `now`: `Range` visits the entries of the store. -/
def cleanupTick (s : State) (now : Int) (rmOk : String → Bool) : State :=
  s.store.entries.foldl (cleanupVisit now rmOk) s

/-- The callback of `cleanupAllFiles`. -/
def cleanupAllVisit (rmOk : String → Bool) (s : State)
    (kv : Sigma (fun _ : String => FileEntry)) : State :=
  let entry := kv.2
  ⟨s.store.erase kv.1, if rmOk entry.Path then s.files.erase entry.Path else s.files⟩

/-- Source `Server.cleanupAllFiles`, the flush at shutdown. -/
def cleanupAllFiles (s : State) (rmOk : String → Bool) : State :=
  s.store.entries.foldl (cleanupAllVisit rmOk) s

/-! ## Derived notions used by the statements -/

/-- A key is well-formed: exactly `keyLength` characters, each in `[a-z0-9]`. -/
def WellFormed (key : String) : Prop :=
  key.data.length = keyLength ∧ ∀ c ∈ key.data, isKeyChar c = true

/-- The request passes every check of `handleUpload` and the file is saved: an
otherwise valid upload of `content` under the client filename `name`. -/
def UploadAccepted (r : UploadRequest) (env : UploadEnv) (name : String)
    (content : List Nat) : Prop :=
  r.method = "POST" ∧ r.formOk = true ∧ len r.key = keyLength ∧ isValidKey r.key = true ∧
  r.file = some (name, content) ∧ content ≠ [] ∧
  (hasPrefix env.mimeType "application/epub+zip" = true ∨
    hasPrefix env.mimeType "application/zip" = true ∨ isEPUB content = true) ∧
  env.createOk = true ∧ env.copyOk = true

/-- Conversion is requested and the external transform succeeds. -/
def conversionDone (r : UploadRequest) (env : UploadEnv) : Bool :=
  r.kepubify == "on" && env.lookPathOk && env.kepubifyRun.isSome

/-- The entry an accepted upload inserts. -/
def uploadedEntry (r : UploadRequest) (env : UploadEnv) (name : String) : FileEntry :=
  if conversionDone r env then
    { Key := r.key, Filename := trimSuffix (uploadName name) ".epub" ++ ".kepub.epub",
      Path := trimSuffix (uploadPath r.key name) ".epub" ++ ".kepub.epub",
      Converted := true, CreatedAt := env.now, LastSeen := env.now2 }
  else
    { Key := r.key, Filename := uploadName name, Path := uploadPath r.key name,
      Converted := false, CreatedAt := env.now, LastSeen := env.now2 }

/-! ## Sample requests -/

/-- A POST upload of a small zip file named `name` under `key`. -/
def sampleUpload (key name kepubify : String) : UploadRequest :=
  ⟨"POST", true, key, some (name, [80, 75, 3, 4]), kepubify⟩

/-- An environment at time `now` in which saving works and kepubify is not
installed. -/
def plainEnv (now : Int) : UploadEnv :=
  ⟨"application/zip", true, true, true, false, none, now, now⟩

/-- An environment at time `now` in which saving works and kepubify succeeds. -/
def kepubEnv (now : Int) : UploadEnv :=
  ⟨"application/zip", true, true, true, true, some [75], now, now⟩

/-- The state after the upload of `Book.epub` under the key `a1b2` at time 0. -/
def sampleState : State :=
  (handleUpload State.empty (sampleUpload "a1b2" "Book.epub" "") (plainEnv 0)).state

/-! ## Runs: every operation is one atomic step -/

/-- One operation on the server. -/
inductive Step where
  /-- A request to `/upload`. -/
  | upload (r : UploadRequest) (env : UploadEnv)
  /-- A request to `/status/...` at time `now`. -/
  | status (urlPath : String) (now : Int)
  /-- A download request at time `now`. -/
  | download (urlPath queryKey : String) (now : Int)
  /-- One tick of the sweeper at time `now`. -/
  | tick (now : Int) (rmOk : String → Bool)
  /-- The flush at shutdown. -/
  | shutdown (rmOk : String → Bool)

/-- The state after one step. -/
def step (s : State) : Step → State
  | .upload r env => (handleUpload s r env).state
  | .status urlPath now => (handleStatus s urlPath now).state
  | .download urlPath queryKey now => (handleDownload s urlPath queryKey now).state
  | .tick now rmOk => cleanupTick s now rmOk
  | .shutdown rmOk => cleanupAllFiles s rmOk

/-- The state after a sequence of steps. -/
def run (s : State) (steps : List Step) : State := steps.foldl step s

/-- Two uploads under the same key with different filenames. -/
def reuploadRun : List Step :=
  [.upload (sampleUpload "a1b2" "one.epub" "") (plainEnv 0),
   .upload (sampleUpload "a1b2" "two.epub" "") (plainEnv 1)]

/-- What the two threads share about one key: whether the store maps the key to
the entry, whether the entry's file exists, the fields `CreatedAt` and
`LastSeen` of the entry and whether its mutex `mu` is held. -/
structure Shared where
  inStore : Bool
  fileExists : Bool
  createdAt : Int
  lastSeen : Int
  locked : Bool
  deriving DecidableEq, Repr

/-- Where the touch of `handleStatus` and `handleDownload` stands: before
`store.Load`, `mu.Lock`, the assignment to `LastSeen`, `mu.Unlock`, or done. -/
inductive TouchPc where
  | load | lock | write | unlock | done
  deriving DecidableEq, Repr

/-- Where the callback of `cleanupRoutine` stands on the entry: before
`mu.Lock`, the two reads, `mu.Unlock`, the comparison, `store.Delete`,
`os.Remove`, or done. -/
inductive SweepPc where
  | lock | read | unlock | compare | delete | remove | done
  deriving DecidableEq, Repr

/-- The two threads and the memory they share. -/
structure Config where
  mem : Shared
  touch : TouchPc
  /-- Whether `store.Load` of the touch found the entry. -/
  found : Bool
  sweep : SweepPc
  /-- The sweeper's local `lastSeen`. -/
  lastSeen : Int
  /-- The sweeper's local `createdAt`. -/
  createdAt : Int
  deriving DecidableEq, Repr

/-- The thread that moves next. -/
inductive Tid where
  | touch | sweeper
  deriving DecidableEq, Repr

/-- One atomic step of the touch, whose `time.Now()` is `touchNow`; `none` when
it is blocked on the mutex or has finished. -/
def stepTouch (touchNow : Int) (c : Config) : Option Config :=
  match c.touch with
  | .load => if c.mem.inStore then some { c with touch := .lock, found := true }
             else some { c with touch := .done, found := false }
  | .lock => if c.mem.locked then none
             else some { c with touch := .write, mem := { c.mem with locked := true } }
  | .write => some { c with touch := .unlock, mem := { c.mem with lastSeen := touchNow } }
  | .unlock => some { c with touch := .done, mem := { c.mem with locked := false } }
  | .done => none

/-- One atomic step of the sweeper's callback in the tick whose `now` is
`tickNow`; `none` when it is blocked on the mutex or has finished. -/
def stepSweep (tickNow : Int) (c : Config) : Option Config :=
  match c.sweep with
  | .lock => if c.mem.locked then none
             else some { c with sweep := .read, mem := { c.mem with locked := true } }
  | .read => some { c with sweep := .unlock, lastSeen := c.mem.lastSeen,
                           createdAt := c.mem.createdAt }
  | .unlock => some { c with sweep := .compare, mem := { c.mem with locked := false } }
  | .compare =>
    if sub tickNow c.lastSeen > keyTimeout || sub tickNow c.createdAt > maxKeyAge then
      some { c with sweep := .delete }
    else some { c with sweep := .done }
  | .delete => some { c with sweep := .remove, mem := { c.mem with inStore := false } }
  | .remove => some { c with sweep := .done, mem := { c.mem with fileExists := false } }
  | .done => none

/-- The configuration after the steps of a schedule, `none` if the schedule asks
a thread to move that cannot. -/
def runSchedule (touchNow tickNow : Int) : Config → List Tid → Option Config
  | c, [] => some c
  | c, .touch :: tl =>
    match stepTouch touchNow c with
    | some c1 => runSchedule touchNow tickNow c1 tl
    | none => none
  | c, .sweeper :: tl =>
    match stepSweep tickNow c with
    | some c1 => runSchedule touchNow tickNow c1 tl
    | none => none

/-- An entry created and last seen at time 0, stored with its file, both threads
about to start. -/
def raceStart : Config :=
  ⟨⟨true, true, 0, 0, false⟩, .load, false, .lock, 0, 0⟩

/-- The sweeper reads the timestamps and releases the mutex, then the touch runs
from `Load` to `Unlock`, then the sweeper compares, deletes and removes. -/
def raceSchedule : List Tid :=
  [.sweeper, .sweeper, .sweeper, .touch, .touch, .touch, .touch, .sweeper, .sweeper, .sweeper]

/-! # Theorems -/

/-! ## Characters -/

theorem toNat_of_beq {c d : Char} (h : (c == d) = true) : c.toNat = d.toNat := by
  rw [beq_iff_eq] at h; rw [h]

theorem isNameChar_bounds {c : Char} (h : isNameChar c = true) :
    32 ≤ c.toNat ∧ c.toNat < 127 ∧ c ≠ '/' ∧ c ≠ '\\' := by
  simp only [isNameChar, isLetter, isDigit, Bool.or_eq_true, Bool.and_eq_true,
    decide_eq_true_eq] at h
  have e1 : ('.' : Char).toNat = 46 := rfl
  have e2 : ('-' : Char).toNat = 45 := rfl
  have e3 : ('_' : Char).toNat = 95 := rfl
  have e4 : (' ' : Char).toNat = 32 := rfl
  have e5 : ('/' : Char).toNat = 47 := rfl
  have e6 : ('\\' : Char).toNat = 92 := rfl
  have key : (c.toNat = 32 ∨ c.toNat = 45 ∨ c.toNat = 46 ∨ c.toNat = 95 ∨
      (48 ≤ c.toNat ∧ c.toNat ≤ 57) ∨ (65 ≤ c.toNat ∧ c.toNat ≤ 90) ∨
      (97 ≤ c.toNat ∧ c.toNat ≤ 122)) := by
    rcases h with ((((h | h) | h) | h) | h) | h
    · rcases h with h | h <;> omega
    · omega
    · have := toNat_of_beq h; omega
    · have := toNat_of_beq h; omega
    · have := toNat_of_beq h; omega
    · have := toNat_of_beq h; omega
  refine ⟨by omega, by omega, ?_, ?_⟩
  · rintro rfl; omega
  · rintro rfl; omega

theorem keepRune_of_isNameChar {c : Char} (h : isNameChar c = true) : keepRune c = some c := by
  have hb := isNameChar_bounds h
  have h1 : (decide (c.toNat < 128) && (isLetter c || isDigit c || c == '.' || c == '-' ||
      c == '_' || c == ' ')) = true := by
    rw [Bool.and_eq_true]
    exact ⟨by simpa using (by omega : c.toNat < 128), h⟩
  unfold keepRune
  rw [if_pos h1]

theorem isNameChar_of_keepRune {r c : Char} (h : keepRune r = some c) : isNameChar c = true := by
  unfold keepRune at h
  split at h
  · rename_i h1
    rw [Bool.and_eq_true] at h1
    cases h
    exact h1.2
  · split at h
    · cases h; rfl
    · split at h
      · cases h; rfl
      · cases h

theorem isSpace_of_isNameChar {c : Char} (h : isNameChar c = true) (hs : isSpace c = true) :
    c = ' ' := by
  simp only [isNameChar, isLetter, isDigit, Bool.or_eq_true, Bool.and_eq_true,
    decide_eq_true_eq] at h
  simp only [isSpace, Bool.or_eq_true, Bool.and_eq_true, decide_eq_true_eq, beq_iff_eq] at hs
  have e1 : ('.' : Char).toNat = 46 := rfl
  have e2 : ('-' : Char).toNat = 45 := rfl
  have e3 : ('_' : Char).toNat = 95 := rfl
  rcases h with ((((h | h) | h) | h) | h) | h
  · exfalso; rcases h with h | h <;> omega
  · exfalso; omega
  · exfalso; have := toNat_of_beq h; omega
  · exfalso; have := toNat_of_beq h; omega
  · exfalso; have := toNat_of_beq h; omega
  · exact beq_iff_eq.mp h

theorem isSpace_of_isRegexSpace {c : Char} (h : isRegexSpace c = true) : isSpace c = true := by
  simp only [isRegexSpace, Bool.or_eq_true, beq_iff_eq] at h
  simp only [isSpace, Bool.or_eq_true, Bool.and_eq_true, decide_eq_true_eq, beq_iff_eq]
  omega

/-! ## Runs -/

theorem mem_replaceRunsAux {p : Char → Bool} {c : Char} {q : Char → Prop} (hc : q c) :
    ∀ (l : List Char) (b : Bool), (∀ x ∈ l, q x) → ∀ y ∈ replaceRunsAux p c b l, q y := by
  intro l
  induction l with
  | nil => intro b _ y hy; simp [replaceRunsAux] at hy
  | cons x xs ih =>
    intro b hl y hy
    have hxs : ∀ z ∈ xs, q z := fun z hz => hl z (List.mem_cons_of_mem _ hz)
    unfold replaceRunsAux at hy
    split at hy
    · split at hy
      · exact ih true hxs y hy
      · rcases List.mem_cons.mp hy with rfl | hy
        · exact hc
        · exact ih true hxs y hy
    · rcases List.mem_cons.mp hy with rfl | hy
      · exact hl _ (List.mem_cons_self _ _)
      · exact ih false hxs y hy

/-- After a replacement no two adjacent runes belong to the class, provided the
replacement rune is the only way a class member is emitted. -/
theorem chain_replaceRunsAux (p : Char → Bool) (c : Char) :
    ∀ (l : List Char) (b : Bool),
      List.Chain' (fun x y => ¬ (p x = true ∧ p y = true)) (replaceRunsAux p c b l) ∧
      (b = true → ∀ y, (replaceRunsAux p c b l).head? = some y → p y = false) := by
  intro l
  induction l with
  | nil => intro b; simp [replaceRunsAux]
  | cons x xs ih =>
    intro b
    by_cases hx : p x = true
    · cases b with
      | true =>
        have : replaceRunsAux p c true (x :: xs) = replaceRunsAux p c true xs := by
          simp [replaceRunsAux, hx]
        rw [this]
        exact ⟨(ih true).1, fun _ => (ih true).2 rfl⟩
      | false =>
        have : replaceRunsAux p c false (x :: xs) = c :: replaceRunsAux p c true xs := by
          simp [replaceRunsAux, hx]
        rw [this]
        refine ⟨?_, fun h => by cases h⟩
        rw [List.chain'_cons']
        refine ⟨?_, (ih true).1⟩
        intro y hy
        have := (ih true).2 rfl y (by simpa using hy)
        simp [this]
    · have : replaceRunsAux p c b (x :: xs) = x :: replaceRunsAux p c false xs := by
        simp [replaceRunsAux, hx]
      rw [this]
      refine ⟨?_, ?_⟩
      · rw [List.chain'_cons']
        refine ⟨?_, (ih false).1⟩
        intro y _
        simp [hx]
      · intro _ y hy
        simp only [List.head?_cons, Option.some.injEq] at hy
        subst hy
        simpa using hx

/-- A replacement by a rune outside `q` keeps a text free of adjacent
`q`-runes. -/
theorem chain_replaceRunsAux_of_chain (p q : Char → Bool) (c : Char) (hc : q c = false) :
    ∀ (l : List Char), List.Chain' (fun x y => ¬ (q x = true ∧ q y = true)) l →
      List.Chain' (fun x y => ¬ (q x = true ∧ q y = true)) (replaceRunsAux p c true l) ∧
      List.Chain' (fun x y => ¬ (q x = true ∧ q y = true)) (replaceRunsAux p c false l) ∧
      (∀ y, (replaceRunsAux p c false l).head? = some y → q y = true → l.head? = some y) := by
  intro l
  induction l with
  | nil => intro _; simp [replaceRunsAux]
  | cons x xs ih =>
    intro hl
    rw [List.chain'_cons'] at hl
    obtain ⟨ih1, ih2, ih3⟩ := ih hl.2
    by_cases hx : p x = true
    · have e1 : replaceRunsAux p c true (x :: xs) = replaceRunsAux p c true xs := by
        simp [replaceRunsAux, hx]
      have e2 : replaceRunsAux p c false (x :: xs) = c :: replaceRunsAux p c true xs := by
        simp [replaceRunsAux, hx]
      rw [e1, e2]
      refine ⟨ih1, ?_, ?_⟩
      · rw [List.chain'_cons']
        exact ⟨fun y _ => by simp [hc], ih1⟩
      · intro y hy hq
        simp only [List.head?_cons, Option.some.injEq] at hy
        subst hy
        rw [hc] at hq
        cases hq
    · have e : ∀ b, replaceRunsAux p c b (x :: xs) = x :: replaceRunsAux p c false xs := by
        intro b; simp [replaceRunsAux, hx]
      rw [e true, e false]
      have hch : List.Chain' (fun x y => ¬ (q x = true ∧ q y = true))
          (x :: replaceRunsAux p c false xs) := by
        rw [List.chain'_cons']
        refine ⟨?_, ih2⟩
        intro y hy
        rintro ⟨hqx, hqy⟩
        have hy' : (replaceRunsAux p c false xs).head? = some y := by simpa using hy
        have := ih3 y hy' hqy
        exact hl.1 y (by simpa using this) ⟨hqx, hqy⟩
      refine ⟨hch, hch, ?_⟩
      intro y hy _
      simpa using hy

/-- A text whose class members are all the replacement rune and never adjacent
is left as it is. -/
theorem replaceRunsAux_eq_self (p : Char → Bool) (c : Char) :
    ∀ (l : List Char), (∀ x ∈ l, p x = true → x = c) →
      List.Chain' (fun x y => ¬ (p x = true ∧ p y = true)) l →
      replaceRunsAux p c false l = l ∧
      ((∀ y, l.head? = some y → p y = false) → replaceRunsAux p c true l = l) := by
  intro l
  induction l with
  | nil => intro _ _; simp [replaceRunsAux]
  | cons x xs ih =>
    intro hl hch
    rw [List.chain'_cons'] at hch
    have hxs : ∀ z ∈ xs, p z = true → z = c := fun z hz => hl z (List.mem_cons_of_mem _ hz)
    obtain ⟨ih1, ih2⟩ := ih hxs hch.2
    by_cases hx : p x = true
    · have hxc : x = c := hl x (List.mem_cons_self _ _) hx
      have hhead : ∀ y, xs.head? = some y → p y = false := by
        intro y hy
        have := hch.1 y (by simpa using hy)
        simpa [hx] using this
      refine ⟨?_, ?_⟩
      · have e : replaceRunsAux p c false (x :: xs) = c :: replaceRunsAux p c true xs := by
          simp [replaceRunsAux, hx]
        rw [e, ih2 hhead, hxc]
      · intro h
        have := h x rfl
        rw [hx] at this
        cases this
    · have e : ∀ b, replaceRunsAux p c b (x :: xs) = x :: xs := by
        intro b; simp [replaceRunsAux, hx, ih1]
      exact ⟨e false, fun _ => e true⟩

/-! ## sanitizeFilename -/

theorem head?_eq_get_zero (l : List Char) (hl : 0 < l.length) :
    l.head? = some (l.get ⟨0, hl⟩) := by
  cases l with
  | nil => simp at hl
  | cons a as => rfl

theorem isRegexSpace_space : isRegexSpace ' ' = true := by decide

theorem isRegexSpace_of_isNameChar {c : Char} (h : isNameChar c = true)
    (hs : isRegexSpace c = true) : c = ' ' :=
  isSpace_of_isNameChar h (isSpace_of_isRegexSpace hs)

theorem not_infix_pair_of_noAdjacent {q : Char → Bool} {l : List Char} {c : Char}
    (hq : q c = true) (h : NoAdjacent q l) : ¬ ([c, c] <:+: l) := by
  intro hin
  have h2 : List.Chain' (fun x y => ¬ (q x = true ∧ q y = true)) [c, c] := List.Chain'.infix h hin
  simp [hq] at h2

/-- The three rewriting stages before `TrimSpace` yield name characters with no
two adjacent dots and no two adjacent blanks. -/
theorem stages_spec (l : List Char) :
    (∀ c ∈ replaceRunsAux isDot '.' false (replaceRunsAux isRegexSpace ' ' false
        (l.filterMap keepRune)), isNameChar c = true) ∧
    NoAdjacent isDot (replaceRunsAux isDot '.' false (replaceRunsAux isRegexSpace ' ' false
        (l.filterMap keepRune))) ∧
    NoAdjacent isRegexSpace (replaceRunsAux isDot '.' false (replaceRunsAux isRegexSpace ' ' false
        (l.filterMap keepRune))) := by
  have h0 : ∀ c ∈ l.filterMap keepRune, isNameChar c = true := by
    intro c hc
    obtain ⟨r, _, hr⟩ := List.mem_filterMap.mp hc
    exact isNameChar_of_keepRune hr
  have h1 := mem_replaceRunsAux (p := isRegexSpace) (c := ' ') (q := fun c => isNameChar c = true)
    (by decide) _ false h0
  have h2 := mem_replaceRunsAux (p := isDot) (c := '.') (q := fun c => isNameChar c = true)
    (by decide) _ false h1
  refine ⟨h2, (chain_replaceRunsAux isDot '.' _ false).1, ?_⟩
  exact (chain_replaceRunsAux_of_chain isDot isRegexSpace '.' (by decide) _
    (chain_replaceRunsAux isRegexSpace ' ' _ false).1).2.1

/-- `TrimSpace` of such a text is sanitized, unless it is empty. -/
theorem sanitized_trim (l : List Char) (hmem : ∀ c ∈ l, isNameChar c = true)
    (hdot : NoAdjacent isDot l) (hsp : NoAdjacent isRegexSpace l)
    (hne : (l.dropWhile isSpace).rdropWhile isSpace ≠ []) :
    Sanitized ((l.dropWhile isSpace).rdropWhile isSpace) := by
  have hinf : (l.dropWhile isSpace).rdropWhile isSpace <:+: l :=
    List.IsInfix.trans (List.rdropWhile_prefix _ _).isInfix (List.dropWhile_suffix _).isInfix
  refine ⟨hne, fun c hc => hmem c (hinf.subset hc), List.Chain'.infix hdot hinf,
    List.Chain'.infix hsp hinf, ?_, ?_⟩
  · intro hh
    have hd : l.dropWhile isSpace ≠ [] := by
      intro h0; rw [h0] at hne; simp [List.rdropWhile] at hne
    have h1 := List.head_dropWhile_not isSpace l hd
    obtain ⟨t, ht⟩ := List.rdropWhile_prefix isSpace (l.dropWhile isSpace)
    cases hr : (l.dropWhile isSpace).rdropWhile isSpace with
    | nil => exact hne hr
    | cons a as =>
      rw [hr] at hh ht
      simp only [List.head?_cons, Option.some.injEq] at hh
      subst hh
      have : (l.dropWhile isSpace).head hd = ' ' := by
        simp [← ht]
      rw [this] at h1
      exact absurd h1 (by decide)
  · intro hh
    have h1 := List.rdropWhile_last_not isSpace (l.dropWhile isSpace) hne
    rw [List.getLast?_eq_getLast _ hne] at hh
    simp only [Option.some.injEq] at hh
    rw [hh] at h1
    exact h1 (by decide)

theorem sanitized_book : Sanitized "book".data := by
  refine ⟨by decide, by decide, ?_, ?_, by decide, by decide⟩
  · simp [NoAdjacent, isDot]
  · simp [NoAdjacent, isRegexSpace]

theorem sanitizeFilename_sanitized (x : String) : Sanitized (sanitizeFilename x).data := by
  obtain ⟨h1, h2, h3⟩ := stages_spec (filepathBase x).data
  unfold sanitizeFilename
  simp only [replaceRuns, trimSpace]
  split
  · exact sanitized_book
  · rename_i hne
    apply sanitized_trim _ h1 h2 h3
    intro h0
    apply hne
    rw [h0]

/-- A sanitized name is a fixed point of every stage of `sanitizeFilename`. -/
theorem sanitizeFilename_of_sanitized (y : String) (h : Sanitized y.data) :
    sanitizeFilename y = y := by
  obtain ⟨hne, hmem, hdot, hsp, hhead, hlast⟩ := h
  have hslash : ∀ c ∈ y.data, (c == '/') = false := by
    intro c hc
    have := (isNameChar_bounds (hmem c hc)).2.2.1
    simpa using this
  have hbase : filepathBase y = y := by
    unfold filepathBase
    have hy : y ≠ "" := by
      intro h0; apply hne; rw [h0]
    rw [if_neg hy]
    have e1 : y.data.rdropWhile (fun r => r == '/') = y.data := by
      rw [List.rdropWhile_eq_self_iff]
      intro hl
      have := hslash _ (List.getLast_mem hl)
      simp [this]
    have e2 : y.data.rtakeWhile (fun r => r != '/') = y.data := by
      rw [List.rtakeWhile_eq_self_iff]
      intro c hc
      have := hslash c hc
      simpa using this
    simp only [e1, e2]
    rw [if_neg hne]
  have hfilter : y.data.filterMap keepRune = y.data := by
    have : ∀ l : List Char, (∀ c ∈ l, isNameChar c = true) → l.filterMap keepRune = l := by
      intro l
      induction l with
      | nil => intro _; rfl
      | cons a as ih =>
        intro hl
        rw [List.filterMap_cons, keepRune_of_isNameChar (hl a (List.mem_cons_self _ _)),
          ih (fun c hc => hl c (List.mem_cons_of_mem _ hc))]
    exact this _ hmem
  have hs1 : replaceRunsAux isRegexSpace ' ' false y.data = y.data :=
    (replaceRunsAux_eq_self isRegexSpace ' ' y.data
      (fun c hc hs => isRegexSpace_of_isNameChar (hmem c hc) hs) hsp).1
  have hs2 : replaceRunsAux isDot '.' false y.data = y.data :=
    (replaceRunsAux_eq_self isDot '.' y.data (fun c _ hs => by simpa [isDot] using hs) hdot).1
  have ht1 : y.data.dropWhile isSpace = y.data := by
    rw [List.dropWhile_eq_self_iff]
    intro hl hs
    apply hhead
    have hm : y.data.get ⟨0, hl⟩ ∈ y.data := List.get_mem _ _ _
    have := isSpace_of_isNameChar (hmem _ hm) hs
    rw [← this]
    exact head?_eq_get_zero _ hl
  have ht2 : y.data.rdropWhile isSpace = y.data := by
    rw [List.rdropWhile_eq_self_iff]
    intro hl hs
    apply hlast
    have := isSpace_of_isNameChar (hmem _ (List.getLast_mem hl)) hs
    rw [List.getLast?_eq_getLast _ hl, this]
  unfold sanitizeFilename
  simp only [replaceRuns, trimSpace, hbase, hfilter, hs1, hs2, ht1, ht2]
  have hy : ¬ ((⟨y.data⟩ : String) = "") := by
    intro h0; apply hne
    have := congrArg String.data h0
    simpa using this
  rw [if_neg hy]

/-- C10. For every input string (the empty one, non-ASCII ones and ones with
path separators or `..` included) `sanitizeFilename` returns a non-empty string
made only of ASCII letters, ASCII digits, `.`, `-`, `_` and blanks (hence with no
`/`, no backslash and no control character), with no two consecutive dots, no
two consecutive blanks, no leading and no trailing blank; and it is
idempotent. -/
theorem sanitizeFilename_spec (x : String) :
    sanitizeFilename x ≠ "" ∧
    (∀ c ∈ (sanitizeFilename x).data, isNameChar c = true ∧ 32 ≤ c.toNat ∧ c.toNat < 127 ∧
      c ≠ '/' ∧ c ≠ '\\') ∧
    ¬ ("..".data <:+: (sanitizeFilename x).data) ∧
    ¬ ("  ".data <:+: (sanitizeFilename x).data) ∧
    (sanitizeFilename x).data.head? ≠ some ' ' ∧
    (sanitizeFilename x).data.getLast? ≠ some ' ' ∧
    sanitizeFilename (sanitizeFilename x) = sanitizeFilename x := by
  have h := sanitizeFilename_sanitized x
  refine ⟨?_, fun c hc => ⟨h.2.1 c hc, isNameChar_bounds (h.2.1 c hc)⟩,
    not_infix_pair_of_noAdjacent (by decide) h.2.2.1,
    not_infix_pair_of_noAdjacent (by decide) h.2.2.2.1, h.2.2.2.2.1, h.2.2.2.2.2,
    sanitizeFilename_of_sanitized _ h⟩
  intro h0
  apply h.1
  rw [h0]


/-! ## Keys -/

theorem utf8Size_of_ascii {c : Char} (h : c.toNat < 128) : c.utf8Size = 1 := by
  unfold Char.utf8Size
  have : c.val ≤ UInt32.ofNatCore 127 (by decide) := by
    show c.val.toNat ≤ 127
    have : c.val.toNat = c.toNat := rfl
    omega
  simp only [this, if_true]

theorem utf8ByteSize_go_of_ascii (l : List Char) (h : ∀ c ∈ l, c.toNat < 128) :
    String.utf8ByteSize.go l = l.length := by
  induction l with
  | nil => rfl
  | cons a as ih =>
    simp only [String.utf8ByteSize.go, List.length_cons]
    rw [ih (fun c hc => h c (List.mem_cons_of_mem _ hc)),
      utf8Size_of_ascii (h a (List.mem_cons_self _ _))]

/-- On ASCII text the byte length is the number of runes. -/
theorem len_of_ascii (s : String) (h : ∀ c ∈ s.data, c.toNat < 128) : len s = s.data.length := by
  cases s with
  | mk l => exact utf8ByteSize_go_of_ascii l h

theorem isKeyChar_ascii {c : Char} (h : isKeyChar c = true) : c.toNat < 128 := by
  simp only [isKeyChar, Bool.or_eq_true, Bool.and_eq_true, decide_eq_true_eq] at h
  omega

theorem isValidKey_iff (key : String) :
    isValidKey key = true ↔ key.data ≠ [] ∧ ∀ c ∈ key.data, isKeyChar c = true := by
  simp [isValidKey, List.isEmpty_iff]

theorem len_of_isValidKey {key : String} (h : isValidKey key = true) :
    len key = key.data.length :=
  len_of_ascii key (fun c hc => isKeyChar_ascii (((isValidKey_iff key).mp h).2 c hc))

theorem chars_getD_isKeyChar : ∀ n : Nat, n < 36 → isKeyChar (chars.data.getD n 'a') = true := by
  decide

/-- C5. Whatever four bytes the random source delivers, `generateKey` returns
a string of length exactly 4 (in runes and in bytes) whose every character is in
`[a-z0-9]`; hence the key passes the validation of the upload path, which
rejects a key when `len(key) != keyLength || !isValidKey(key)`. -/
theorem generateKey_wellFormed (rnd : List Nat) :
    (generateKey rnd).data.length = 4 ∧ len (generateKey rnd) = 4 ∧
    (∀ c ∈ (generateKey rnd).data, isKeyChar c = true) ∧
    (len (generateKey rnd) != keyLength || !isValidKey (generateKey rnd)) = false := by
  have hlen : (generateKey rnd).data.length = 4 := by
    simp [generateKey, keyLength]
  have hmem : ∀ c ∈ (generateKey rnd).data, isKeyChar c = true := by
    intro c hc
    simp only [generateKey, List.mem_map] at hc
    obtain ⟨x, _, rfl⟩ := hc
    have e : len chars % 256 = 36 := by decide
    rw [e]
    exact chars_getD_isKeyChar _ (Nat.mod_lt _ (by decide))
  have hvalid : isValidKey (generateKey rnd) = true := by
    rw [isValidKey_iff]
    refine ⟨?_, hmem⟩
    intro h0
    rw [h0] at hlen
    cases hlen
  have hl : len (generateKey rnd) = 4 := by
    rw [len_of_isValidKey hvalid, hlen]
  refine ⟨hlen, hl, hmem, ?_⟩
  rw [hl, hvalid]
  decide


/-! ## Upload -/

theorem wellFormed_of_checks {key : String} (h1 : len key = keyLength)
    (h2 : isValidKey key = true) : WellFormed key :=
  ⟨by rw [← len_of_isValidKey h2]; exact h1, ((isValidKey_iff key).mp h2).2⟩

theorem kepubPath_ne_empty (p : String) : (trimSuffix p ".epub" ++ ".kepub.epub" != "") = true := by
  rw [bne_iff_ne]
  intro h
  have := congrArg (fun s : String => s.data.length) h
  simp [String.data_append] at this

theorem convertBlock_plain (r : UploadRequest) (env : UploadEnv) (files : Files)
    (tempPath filename : String) (hc : conversionDone r env = false) :
    convertBlock r env files tempPath filename = ⟨tempPath, false, filename, files⟩ := by
  unfold convertBlock
  by_cases hk : (r.kepubify == "on") = true
  · simp only [conversionDone, hk, Bool.true_and, Bool.and_eq_false_iff] at hc
    rw [if_pos hk]
    rcases hc with hc | hc
    · simp [convertToKepub, hc]
    · have hn : env.kepubifyRun = none := by
        cases hr : env.kepubifyRun with
        | none => rfl
        | some o => rw [hr] at hc; cases hc
      simp [convertToKepub, hn]
  · rw [if_neg hk]

theorem convertBlock_converted (r : UploadRequest) (env : UploadEnv) (files : Files)
    (tempPath filename : String) (out : List Nat)
    (hk : r.kepubify = "on") (hl : env.lookPathOk = true) (hr : env.kepubifyRun = some out) :
    convertBlock r env files tempPath filename =
      ⟨trimSuffix tempPath ".epub" ++ ".kepub.epub", true,
        trimSuffix filename ".epub" ++ ".kepub.epub",
        if env.removeOk then
          (files.insert (trimSuffix tempPath ".epub" ++ ".kepub.epub") out).erase tempPath
        else files.insert (trimSuffix tempPath ".epub" ++ ".kepub.epub") out⟩ := by
  have hne := kepubPath_ne_empty tempPath
  unfold convertBlock
  simp only [hk, hl, hr, convertToKepub, beq_self_eq_true, if_true, Bool.not_true,
    Bool.false_eq_true, if_false, hne]

theorem handleUpload_accepted (s : State) (r : UploadRequest) (env : UploadEnv) (name : String)
    (content : List Nat) (h : UploadAccepted r env name content) :
    handleUpload s r env =
      ⟨.uploadOk (convertBlock r env (s.files.insert (uploadPath r.key name) content)
          (uploadPath r.key name) (uploadName name)).filename r.key,
        ⟨s.store.insert r.key
            { Key := r.key,
              Filename := (convertBlock r env (s.files.insert (uploadPath r.key name) content)
                (uploadPath r.key name) (uploadName name)).filename,
              Path := (convertBlock r env (s.files.insert (uploadPath r.key name) content)
                (uploadPath r.key name) (uploadName name)).finalPath,
              Converted := (convertBlock r env (s.files.insert (uploadPath r.key name) content)
                (uploadPath r.key name) (uploadName name)).converted,
              CreatedAt := env.now, LastSeen := env.now2 },
          (convertBlock r env (s.files.insert (uploadPath r.key name) content)
            (uploadPath r.key name) (uploadName name)).files⟩,
        [.store r.key]⟩ := by
  obtain ⟨h1, h2, h3, h4, h5, h6, h7, h8, h9⟩ := h
  have h6' : content.isEmpty = false := by
    cases content with
    | nil => exact absurd rfl h6
    | cons a as => rfl
  have h7' : (!hasPrefix env.mimeType "application/epub+zip" &&
      !hasPrefix env.mimeType "application/zip" && !isEPUB content) = false := by
    rcases h7 with h | h | h <;> simp [h]
  unfold handleUpload
  simp only [h1, h2, h3, h4, h5, h6', h7', h8, h9, bne_self_eq_false, Bool.not_true,
    Bool.false_eq_true, if_false, Bool.or_self, AList.insert_insert]

theorem handleUpload_plain (s : State) (r : UploadRequest) (env : UploadEnv) (name : String)
    (content : List Nat) (h : UploadAccepted r env name content)
    (hc : conversionDone r env = false) :
    handleUpload s r env =
      ⟨.uploadOk (uploadName name) r.key,
        ⟨s.store.insert r.key
            { Key := r.key, Filename := uploadName name, Path := uploadPath r.key name,
              Converted := false, CreatedAt := env.now, LastSeen := env.now2 },
          s.files.insert (uploadPath r.key name) content⟩,
        [.store r.key]⟩ := by
  rw [handleUpload_accepted s r env name content h, convertBlock_plain _ _ _ _ _ hc]

theorem handleUpload_converted (s : State) (r : UploadRequest) (env : UploadEnv) (name : String)
    (content out : List Nat) (h : UploadAccepted r env name content)
    (hk : r.kepubify = "on") (hl : env.lookPathOk = true) (hr : env.kepubifyRun = some out) :
    handleUpload s r env =
      ⟨.uploadOk (trimSuffix (uploadName name) ".epub" ++ ".kepub.epub") r.key,
        ⟨s.store.insert r.key
            { Key := r.key, Filename := trimSuffix (uploadName name) ".epub" ++ ".kepub.epub",
              Path := trimSuffix (uploadPath r.key name) ".epub" ++ ".kepub.epub",
              Converted := true, CreatedAt := env.now, LastSeen := env.now2 },
          if env.removeOk then
            AList.erase (uploadPath r.key name)
              (AList.insert (trimSuffix (uploadPath r.key name) ".epub" ++ ".kepub.epub") out
                (AList.insert (uploadPath r.key name) content s.files))
          else
            AList.insert (trimSuffix (uploadPath r.key name) ".epub" ++ ".kepub.epub") out
              (AList.insert (uploadPath r.key name) content s.files)⟩,
        [.store r.key]⟩ := by
  rw [handleUpload_accepted s r env name content h, convertBlock_converted _ _ _ _ _ out hk hl hr]


theorem trimSuffix_append (pre s suf : String) (h : suf.data.length ≤ s.data.length) :
    trimSuffix (pre ++ s) suf = pre ++ trimSuffix s suf := by
  have hiff : hasSuffix (pre ++ s) suf = hasSuffix s suf := by
    rw [Bool.eq_iff_iff]
    simp only [hasSuffix, String.data_append, List.isSuffixOf_iff_suffix]
    constructor
    · intro h1
      exact List.suffix_of_suffix_length_le h1 (List.suffix_append _ _) h
    · intro h1
      exact h1.trans (List.suffix_append _ _)
  unfold trimSuffix
  rw [hiff]
  split
  · apply String.ext
    simp only [String.data_append, List.length_append]
    rw [List.take_append_eq_append_take]
    have e1 : pre.data.length + s.data.length - suf.data.length - pre.data.length =
        s.data.length - suf.data.length := by omega
    have e2 : pre.data.length ≤ pre.data.length + s.data.length - suf.data.length := by omega
    rw [e1, List.take_of_length_le e2]
  · rfl

theorem uploadName_length (name : String) : 5 ≤ (uploadName name).data.length := by
  unfold uploadName
  simp only
  split
  · simp [String.data_append]
  · rename_i h
    have h' : hasSuffix (toLower (sanitizeFilename name)) ".epub" = true := by simpa using h
    simp only [hasSuffix, List.isSuffixOf_iff_suffix] at h'
    have := h'.length_le
    simpa [toLower] using this

/-- The path of a converted upload is again the upload directory, the key, an
underscore and the (rewritten) filename. -/
theorem kepubPath_shape (key name : String) :
    trimSuffix (uploadPath key name) ".epub" ++ ".kepub.epub" =
      uploadsDir ++ "/" ++ key ++ "_" ++ (trimSuffix (uploadName name) ".epub" ++ ".kepub.epub") := by
  have h : uploadPath key name = (uploadsDir ++ "/" ++ key ++ "_") ++ uploadName name := by
    simp [uploadPath, filepathJoin, String.append_assoc]
  have hl : (".epub" : String).data.length ≤ (uploadName name).data.length :=
    uploadName_length name
  rw [h, trimSuffix_append _ _ _ hl]
  simp [String.append_assoc]

theorem conversionDone_cases (r : UploadRequest) (env : UploadEnv) :
    conversionDone r env = false ∨
      (r.kepubify = "on" ∧ env.lookPathOk = true ∧ ∃ out, env.kepubifyRun = some out) := by
  by_cases hc : conversionDone r env = true
  · right
    simp only [conversionDone, Bool.and_eq_true, beq_iff_eq] at hc
    refine ⟨hc.1.1, hc.1.2, ?_⟩
    cases hr : env.kepubifyRun with
    | none => rw [hr] at hc; simp at hc
    | some o => exact ⟨o, rfl⟩
  · left
    simpa using hc

theorem handleUpload_store (s : State) (r : UploadRequest) (env : UploadEnv) (name : String)
    (content : List Nat) (h : UploadAccepted r env name content) :
    (handleUpload s r env).state.store = s.store.insert r.key (uploadedEntry r env name) ∧
    (handleUpload s r env).resp = .uploadOk (uploadedEntry r env name).Filename r.key ∧
    (handleUpload s r env).ops = [.store r.key] := by
  rcases conversionDone_cases r env with hc | ⟨hk, hl, out, hr⟩
  · rw [handleUpload_plain s r env name content h hc]
    simp [uploadedEntry, hc]
  · have hc : conversionDone r env = true := by
      simp [conversionDone, hk, hl, hr]
    rw [handleUpload_converted s r env name content out h hk hl hr]
    simp [uploadedEntry, hc]

theorem uploadedEntry_path (r : UploadRequest) (env : UploadEnv) (name : String) :
    (uploadedEntry r env name).Key = r.key ∧
    (uploadedEntry r env name).Path =
      uploadsDir ++ "/" ++ (uploadedEntry r env name).Key ++ "_" ++
        (uploadedEntry r env name).Filename := by
  unfold uploadedEntry
  split
  · exact ⟨rfl, kepubPath_shape r.key name⟩
  · exact ⟨rfl, by simp [uploadPath, filepathJoin, String.append_assoc]⟩

theorem path_key_injective {k1 k2 f1 f2 : String} (h1 : WellFormed k1) (h2 : WellFormed k2)
    (h : uploadsDir ++ "/" ++ k1 ++ "_" ++ f1 = uploadsDir ++ "/" ++ k2 ++ "_" ++ f2) :
    k1 = k2 := by
  have hd := congrArg String.data h
  simp only [String.data_append, List.append_assoc] at hd
  have hd := List.append_cancel_left hd
  have hd := List.append_cancel_left hd
  have := (List.append_inj hd (by rw [h1.1, h2.1])).1
  exact String.ext this

/-- C8. Every entry that `handleUpload` inserts has
`Path = uploadsDir + "/" + Key + "_" + Filename`, in the unconverted case and
after the `.kepub.epub` rewrite alike; hence two accepted uploads under
different keys, whatever their filenames and conversion outcomes, yield entries
with different storage paths. -/
theorem upload_paths_distinct (s1 s2 : State) (r1 r2 : UploadRequest) (env1 env2 : UploadEnv)
    (n1 n2 : String) (c1 c2 : List Nat) (h1 : UploadAccepted r1 env1 n1 c1)
    (h2 : UploadAccepted r2 env2 n2 c2) (hk : r1.key ≠ r2.key) :
    ∃ e1 e2, (handleUpload s1 r1 env1).state.store.lookup r1.key = some e1 ∧
      (handleUpload s2 r2 env2).state.store.lookup r2.key = some e2 ∧
      e1.Path = uploadsDir ++ "/" ++ e1.Key ++ "_" ++ e1.Filename ∧
      e2.Path = uploadsDir ++ "/" ++ e2.Key ++ "_" ++ e2.Filename ∧
      e1.Path ≠ e2.Path := by
  refine ⟨uploadedEntry r1 env1 n1, uploadedEntry r2 env2 n2, ?_, ?_,
    (uploadedEntry_path r1 env1 n1).2, (uploadedEntry_path r2 env2 n2).2, ?_⟩
  · rw [(handleUpload_store s1 r1 env1 n1 c1 h1).1, AList.lookup_insert]
  · rw [(handleUpload_store s2 r2 env2 n2 c2 h2).1, AList.lookup_insert]
  · intro h
    rw [(uploadedEntry_path r1 env1 n1).2, (uploadedEntry_path r2 env2 n2).2,
      (uploadedEntry_path r1 env1 n1).1, (uploadedEntry_path r2 env2 n2).1] at h
    exact hk (path_key_injective (wellFormed_of_checks h1.2.2.1 h1.2.2.2.1)
      (wellFormed_of_checks h2.2.2.1 h2.2.2.2.1) h)


theorem sampleUpload_accepted (key name kepubify : String) (env : UploadEnv)
    (h1 : len key = keyLength) (h2 : isValidKey key = true)
    (h3 : env.mimeType = "application/zip") (h4 : env.createOk = true)
    (h5 : env.copyOk = true) :
    UploadAccepted (sampleUpload key name kepubify) env name [80, 75, 3, 4] :=
  ⟨rfl, rfl, h1, h2, rfl, by decide, Or.inr (Or.inl (by rw [h3]; decide)), h4, h5⟩

theorem upload_paths_distinct_witness :
    ∃ e1 e2,
      (handleUpload State.empty (sampleUpload "a1b2" "Book.epub" "") (plainEnv 0)).state.store.lookup
        "a1b2" = some e1 ∧
      (handleUpload State.empty (sampleUpload "zz99" "Book.epub" "on") (kepubEnv 0)).state.store.lookup
        "zz99" = some e2 ∧
      e1.Path = uploadsDir ++ "/" ++ e1.Key ++ "_" ++ e1.Filename ∧
      e2.Path = uploadsDir ++ "/" ++ e2.Key ++ "_" ++ e2.Filename ∧
      e1.Path ≠ e2.Path :=
  upload_paths_distinct State.empty State.empty (sampleUpload "a1b2" "Book.epub" "")
    (sampleUpload "zz99" "Book.epub" "on") (plainEnv 0) (kepubEnv 0) "Book.epub" "Book.epub"
    [80, 75, 3, 4] [80, 75, 3, 4]
    (sampleUpload_accepted _ _ _ _ (by decide) (by decide) rfl rfl rfl)
    (sampleUpload_accepted _ _ _ _ (by decide) (by decide) rfl rfl rfl) (by decide)

/-- C7. For an otherwise valid upload with conversion requested for which
`convertToKepub` returns the empty string (kepubify missing or failing), the
upload succeeds and the entry stored under the key has `Converted = false`, the
path of the originally saved file, which still exists with the uploaded
content, and the sanitized filename without the `.kepub.epub` rewrite.  For
every accepted upload the stored `Converted` is true exactly when conversion was
requested and the transform succeeded. -/
theorem upload_conversion_fallback (s : State) (r : UploadRequest) (env : UploadEnv)
    (name : String) (content : List Nat) (h : UploadAccepted r env name content) :
    (r.kepubify = "on" →
      (convertToKepub (s.files.insert (uploadPath r.key name) content) (uploadPath r.key name)
        env.lookPathOk env.kepubifyRun).1 = "" →
      (handleUpload s r env).resp = .uploadOk (uploadName name) r.key ∧
      (handleUpload s r env).state.store.lookup r.key =
        some { Key := r.key, Filename := uploadName name, Path := uploadPath r.key name,
               Converted := false, CreatedAt := env.now, LastSeen := env.now2 } ∧
      (handleUpload s r env).state.files.lookup (uploadPath r.key name) = some content) ∧
    (∃ e, (handleUpload s r env).state.store.lookup r.key = some e ∧
      (e.Converted = true ↔
        (r.kepubify = "on" ∧ env.lookPathOk = true ∧ env.kepubifyRun.isSome = true))) := by
  constructor
  · intro _ hconv
    have hc : conversionDone r env = false := by
      rcases conversionDone_cases r env with hc | ⟨_, hl, out, hr⟩
      · exact hc
      · exfalso
        have hne := kepubPath_ne_empty (uploadPath r.key name)
        simp only [convertToKepub, hl, hr, Bool.not_true, Bool.false_eq_true, if_false] at hconv
        rw [hconv] at hne
        exact absurd hne (by decide)
    rw [handleUpload_plain s r env name content h hc]
    exact ⟨rfl, AList.lookup_insert _, AList.lookup_insert _⟩
  · refine ⟨uploadedEntry r env name, ?_, ?_⟩
    · rw [(handleUpload_store s r env name content h).1, AList.lookup_insert]
    · have : (uploadedEntry r env name).Converted = conversionDone r env := by
        unfold uploadedEntry
        split <;> simp_all
      rw [this]
      simp [conversionDone, and_assoc]

theorem upload_conversion_fallback_witness :
    (handleUpload State.empty (sampleUpload "a1b2" "Book.epub" "on") (plainEnv 7)).resp =
        .uploadOk "Book.epub" "a1b2" ∧
    (handleUpload State.empty (sampleUpload "a1b2" "Book.epub" "on") (plainEnv 7)).state.store.lookup
        "a1b2" =
      some { Key := "a1b2", Filename := "Book.epub", Path := "uploads/a1b2_Book.epub",
             Converted := false, CreatedAt := 7, LastSeen := 7 } ∧
    (handleUpload State.empty (sampleUpload "a1b2" "Book.epub" "on") (plainEnv 7)).state.files.lookup
        "uploads/a1b2_Book.epub" = some [80, 75, 3, 4] :=
  (upload_conversion_fallback State.empty (sampleUpload "a1b2" "Book.epub" "on") (plainEnv 7)
    "Book.epub" [80, 75, 3, 4]
    (sampleUpload_accepted _ _ _ _ (by decide) (by decide) rfl rfl rfl)).1 rfl (by decide)

/-! ## Which keys reach the store -/

/-- The upload path reaches the store only with a well-formed key. -/
theorem handleUpload_ops (s : State) (r : UploadRequest) (env : UploadEnv) :
    ∀ op ∈ (handleUpload s r env).ops, op = .store r.key ∧ WellFormed r.key := by
  intro op hop
  unfold handleUpload at hop
  split at hop
  · simp at hop
  · split at hop
    · simp at hop
    · split at hop
      · simp at hop
      · rename_i hkey
        simp only [Bool.or_eq_true, bne_iff_ne, ne_eq, Bool.not_eq_true', not_or, not_not,
          Bool.not_eq_false] at hkey
        have hw := wellFormed_of_checks hkey.1 hkey.2
        split at hop
        · simp at hop
        · repeat' split at hop
          all_goals simp at hop
          all_goals exact ⟨hop, hw⟩

/-- C1 (the code at the failing input). The key `ABCD` has length 4 but is not
in `[a-z0-9]`; `handleStatus` and `handleDownload`, which check the length only,
load it from the store all the same, whatever the state. -/
theorem malformed_key_reaches_store (s : State) (now : Int) :
    ¬ WellFormed "ABCD" ∧ (handleStatus s "/status/ABCD" now).ops = [.load "ABCD"] ∧
    (handleDownload s "/Book.epub" "ABCD" now).ops = [.load "ABCD"] := by
  refine ⟨?_, ?_, ?_⟩
  · intro h
    exact absurd (h.2 'A' (by decide)) (by decide)
  · have e : trimPrefix "/status/ABCD" "/status/" = "ABCD" := by decide
    have e2 : (len "ABCD" != keyLength) = false := by decide
    unfold handleStatus
    simp only [e, e2, Bool.false_eq_true, if_false]
    split <;> rfl
  · have e : trimPrefix "/Book.epub" "/" = "Book.epub" := by decide
    have e1 : ¬ ("Book.epub" = "") := by decide
    have e2 : (len "ABCD" != keyLength) = false := by decide
    unfold handleDownload
    simp only [e, e1, e2, Bool.false_eq_true, if_false]
    split
    · rfl
    · split
      · rfl
      · split <;> rfl


/-! ## Download -/

/-- C6. `handleDownload` serves a payload only when the store holds an entry
under the key whose `Filename` equals the requested name exactly, and then it is
the content of the entry's file; when an entry exists under the key but its
`Filename` differs from the requested name the response is `http.NotFound`, the
very response given when no entry exists under the key. -/
theorem handleDownload_name_check (s : State) (urlPath key : String) (now : Int) :
    (∀ fn content, (handleDownload s urlPath key now).resp = .served fn content →
      ∃ e, s.store.lookup key = some e ∧ e.Filename = trimPrefix urlPath "/" ∧
        fn = e.Filename ∧ s.files.lookup e.Path = some content) ∧
    (∀ e, s.store.lookup key = some e → e.Filename ≠ trimPrefix urlPath "/" →
      (handleDownload s urlPath key now).resp = notFound) ∧
    (s.store.lookup key = none → (handleDownload s urlPath key now).resp = notFound) := by
  refine ⟨?_, ?_, ?_⟩
  · intro fn content h
    unfold handleDownload at h
    simp only at h
    split at h
    · cases h
    · split at h
      · cases h
      · split at h
        · cases h
        · rename_i e he
          split at h
          · cases h
          · rename_i hname
            simp only [bne_iff_ne, ne_eq, not_not] at hname
            split at h
            · cases h
            · rename_i c hc
              simp only [Response.served.injEq] at h
              refine ⟨e, he, hname, h.1.symm, ?_⟩
              rw [← h.2]
              exact hc
  · intro e he hne
    unfold handleDownload
    simp only [he]
    split
    · rfl
    · split
      · rfl
      · have : (e.Filename != trimPrefix urlPath "/") = true := by simpa using hne
        simp only [this, if_true]
  · intro he
    unfold handleDownload
    simp only [he]
    split
    · rfl
    · split <;> rfl

theorem handleDownload_name_check_witness :
    (handleDownload sampleState "/Book.epub" "a1b2" 5).resp = .served "Book.epub" [80, 75, 3, 4] ∧
    (handleDownload sampleState "/Other.epub" "a1b2" 5).resp = notFound ∧
    (handleDownload sampleState "/Book.epub" "zzzz" 5).resp = notFound :=
  ⟨by decide,
    (handleDownload_name_check sampleState "/Other.epub" "a1b2" 5).2.1
      { Key := "a1b2", Filename := "Book.epub", Path := "uploads/a1b2_Book.epub",
        Converted := false, CreatedAt := 0, LastSeen := 0 } (by decide) (by decide),
    (handleDownload_name_check sampleState "/Book.epub" "zzzz" 5).2.2 (by decide)⟩

/-! ## The sweeper -/

theorem sub_gt_iff (t u d : Int) (h0 : minDuration ≤ d) (h1 : d < maxDuration) :
    sub t u > d ↔ t - u > d := by
  unfold sub
  simp only [maxDuration, minDuration] at *
  split
  · constructor <;> intro _ <;> omega
  · split
    · constructor <;> intro _ <;> omega
    · rfl

theorem isExpired_iff (now : Int) (e : FileEntry) :
    isExpired now e = true ↔
      (now - e.LastSeen > keyTimeout ∨ now - e.CreatedAt > maxKeyAge) := by
  unfold isExpired
  rw [Bool.or_eq_true, decide_eq_true_eq, decide_eq_true_eq,
    sub_gt_iff _ _ keyTimeout (by decide) (by decide),
    sub_gt_iff _ _ maxKeyAge (by decide) (by decide)]

/-- The store after a range of visits: expired keys are gone, the rest is
untouched. -/
theorem cleanupVisit_fold_store (now : Int) (rmOk : String → Bool) :
    ∀ (l : List (Sigma (fun _ : String => FileEntry))) (s : State) (k : String),
      ((∃ kv ∈ l, kv.1 = k ∧ isExpired now kv.2 = true) →
        (l.foldl (cleanupVisit now rmOk) s).store.lookup k = none) ∧
      ((¬ ∃ kv ∈ l, kv.1 = k ∧ isExpired now kv.2 = true) →
        (l.foldl (cleanupVisit now rmOk) s).store.lookup k = s.store.lookup k) := by
  intro l
  induction l with
  | nil => intro s k; simp
  | cons kv tl ih =>
    intro s k
    rw [List.foldl_cons]
    obtain ⟨ih1, ih2⟩ := ih (cleanupVisit now rmOk s kv) k
    have hstep : (cleanupVisit now rmOk s kv).store.lookup k =
        if kv.1 = k ∧ isExpired now kv.2 = true then none else s.store.lookup k := by
      simp only [cleanupVisit]
      by_cases hx : isExpired now kv.2 = true
      · simp only [hx, if_true, and_true]
        by_cases hk : kv.1 = k
        · rw [if_pos hk, ← hk, AList.lookup_erase]
        · rw [if_neg hk, AList.lookup_erase_ne (Ne.symm hk)]
      · simp [hx]
    constructor
    · rintro ⟨kv', hmem, hk, hx⟩
      by_cases htl : ∃ kv ∈ tl, kv.1 = k ∧ isExpired now kv.2 = true
      · exact ih1 htl
      · rw [ih2 htl, hstep]
        rcases List.mem_cons.mp hmem with rfl | hmem
        · rw [if_pos ⟨hk, hx⟩]
        · exact absurd ⟨kv', hmem, hk, hx⟩ htl
    · intro hno
      have htl : ¬ ∃ kv ∈ tl, kv.1 = k ∧ isExpired now kv.2 = true := by
        rintro ⟨kv', hmem, h⟩
        exact hno ⟨kv', List.mem_cons_of_mem _ hmem, h⟩
      rw [ih2 htl, hstep, if_neg]
      intro h
      exact hno ⟨kv, List.mem_cons_self _ _, h⟩

/-- The store component of a range of visits does not depend on the outcomes of
the file removals. -/
theorem cleanupVisit_fold_store_eq (now : Int) (rmOk rmOk' : String → Bool) :
    ∀ (l : List (Sigma (fun _ : String => FileEntry))) (s s' : State), s.store = s'.store →
      (l.foldl (cleanupVisit now rmOk) s).store = (l.foldl (cleanupVisit now rmOk') s').store := by
  intro l
  induction l with
  | nil => intro s s' h; exact h
  | cons kv tl ih =>
    intro s s' h
    rw [List.foldl_cons, List.foldl_cons]
    apply ih
    simp only [cleanupVisit]
    split <;> simp [h]

/-- The file of an expired entry is gone after the range when its removal
succeeds. -/
theorem cleanupVisit_fold_files (now : Int) (rmOk : String → Bool) :
    ∀ (l : List (Sigma (fun _ : String => FileEntry))) (s : State) (p : String),
      ((∃ kv ∈ l, kv.2.Path = p ∧ isExpired now kv.2 = true ∧ rmOk p = true) →
        (l.foldl (cleanupVisit now rmOk) s).files.lookup p = none) ∧
      ((¬ ∃ kv ∈ l, kv.2.Path = p ∧ isExpired now kv.2 = true ∧ rmOk p = true) →
        (l.foldl (cleanupVisit now rmOk) s).files.lookup p = s.files.lookup p) := by
  intro l
  induction l with
  | nil => intro s k; simp
  | cons kv tl ih =>
    intro s p
    rw [List.foldl_cons]
    obtain ⟨ih1, ih2⟩ := ih (cleanupVisit now rmOk s kv) p
    have hstep : (cleanupVisit now rmOk s kv).files.lookup p =
        if kv.2.Path = p ∧ isExpired now kv.2 = true ∧ rmOk p = true then none
        else s.files.lookup p := by
      simp only [cleanupVisit]
      by_cases hx : isExpired now kv.2 = true
      · by_cases hk : kv.2.Path = p
        · subst hk
          by_cases hr : rmOk kv.2.Path = true
          · simp [hx, hr]
          · simp [hx, hr]
        · by_cases hr : rmOk kv.2.Path = true
          · simp [hx, hr, hk, AList.lookup_erase_ne (Ne.symm hk)]
          · simp [hx, hr, hk]
      · simp [hx]
    constructor
    · rintro ⟨kv', hmem, hk⟩
      by_cases htl : ∃ kv ∈ tl, kv.2.Path = p ∧ isExpired now kv.2 = true ∧ rmOk p = true
      · exact ih1 htl
      · rw [ih2 htl, hstep]
        rcases List.mem_cons.mp hmem with rfl | hmem
        · rw [if_pos hk]
        · exact absurd ⟨kv', hmem, hk⟩ htl
    · intro hno
      have htl : ¬ ∃ kv ∈ tl, kv.2.Path = p ∧ isExpired now kv.2 = true ∧ rmOk p = true := by
        rintro ⟨kv', hmem, h⟩
        exact hno ⟨kv', List.mem_cons_of_mem _ hmem, h⟩
      rw [ih2 htl, hstep, if_neg]
      intro h
      exact hno ⟨kv, List.mem_cons_self _ _, h⟩

theorem cleanupTick_lookup (s : State) (now : Int) (rmOk : String → Bool) (k : String) :
    (cleanupTick s now rmOk).store.lookup k =
      match s.store.lookup k with
      | some e => if isExpired now e = true then none else some e
      | none => none := by
  obtain ⟨h1, h2⟩ := cleanupVisit_fold_store now rmOk s.store.entries s k
  unfold cleanupTick
  cases he : s.store.lookup k with
  | none =>
    simp only
    rw [h2, he]
    rintro ⟨kv, hmem, hk, _⟩
    have : kv.2 ∈ s.store.lookup kv.1 := AList.mem_lookup_iff.mpr hmem
    rw [hk, he] at this
    cases this
  | some e =>
    simp only
    have hmem : (⟨k, e⟩ : Sigma (fun _ : String => FileEntry)) ∈ s.store.entries :=
      AList.mem_lookup_iff.mp he
    by_cases hx : isExpired now e = true
    · rw [if_pos hx]
      exact h1 ⟨⟨k, e⟩, hmem, rfl, hx⟩
    · rw [if_neg hx, h2, he]
      rintro ⟨kv, hmem', hk, hx'⟩
      have : kv.2 ∈ s.store.lookup kv.1 := AList.mem_lookup_iff.mpr hmem'
      rw [hk, he] at this
      have : e = kv.2 := by simpa using this
      rw [← this] at hx'
      exact hx hx'

/-- C3. One sweeper tick at time `now` removes from the store exactly the
entries with `now - LastSeen > 30s` or `now - CreatedAt > 1h` (both strict) and
leaves every other entry, fields included, as it was; the file of a removed entry
is gone when its removal succeeds; and the resulting store is the same whatever
the outcomes of the file removals. -/
theorem cleanupTick_spec (s : State) (now : Int) (rmOk rmOk' : String → Bool) :
    (∀ k e, s.store.lookup k = some e →
      (now - e.LastSeen > 30 * second ∨ now - e.CreatedAt > 3600 * second) →
      (cleanupTick s now rmOk).store.lookup k = none ∧
      (rmOk e.Path = true → (cleanupTick s now rmOk).files.lookup e.Path = none)) ∧
    (∀ k e, s.store.lookup k = some e →
      ¬ (now - e.LastSeen > 30 * second ∨ now - e.CreatedAt > 3600 * second) →
      (cleanupTick s now rmOk).store.lookup k = some e) ∧
    (∀ k, s.store.lookup k = none → (cleanupTick s now rmOk).store.lookup k = none) ∧
    (cleanupTick s now rmOk).store = (cleanupTick s now rmOk').store := by
  have hk : keyTimeout = 30 * second := rfl
  have hm : maxKeyAge = 3600 * second := by decide
  refine ⟨?_, ?_, ?_, ?_⟩
  · intro k e he hx
    rw [← hk, ← hm, ← isExpired_iff] at hx
    constructor
    · rw [cleanupTick_lookup, he]
      simp [hx]
    · intro hr
      exact (cleanupVisit_fold_files now rmOk s.store.entries s e.Path).1
        ⟨⟨k, e⟩, AList.mem_lookup_iff.mp he, rfl, hx, hr⟩
  · intro k e he hx
    rw [← hk, ← hm, ← isExpired_iff] at hx
    rw [cleanupTick_lookup, he]
    simp [hx]
  · intro k he
    rw [cleanupTick_lookup, he]
  · exact cleanupVisit_fold_store_eq now rmOk rmOk' _ s s rfl

theorem cleanupTick_spec_witness :
    ((cleanupTick sampleState (31 * second) (fun _ => true)).store.lookup "a1b2" = none ∧
      (cleanupTick sampleState (31 * second) (fun _ => true)).files.lookup
        "uploads/a1b2_Book.epub" = none) ∧
    (cleanupTick sampleState (30 * second) (fun _ => true)).store.lookup "a1b2" =
      some { Key := "a1b2", Filename := "Book.epub", Path := "uploads/a1b2_Book.epub",
             Converted := false, CreatedAt := 0, LastSeen := 0 } ∧
    (cleanupTick sampleState (31 * second) (fun _ => true)).store.lookup "zzzz" = none :=
  ⟨⟨((cleanupTick_spec sampleState (31 * second) (fun _ => true) (fun _ => false)).1 "a1b2"
        { Key := "a1b2", Filename := "Book.epub", Path := "uploads/a1b2_Book.epub",
          Converted := false, CreatedAt := 0, LastSeen := 0 } (by decide) (by decide)).1,
      ((cleanupTick_spec sampleState (31 * second) (fun _ => true) (fun _ => false)).1 "a1b2"
        { Key := "a1b2", Filename := "Book.epub", Path := "uploads/a1b2_Book.epub",
          Converted := false, CreatedAt := 0, LastSeen := 0 } (by decide) (by decide)).2 rfl⟩,
    (cleanupTick_spec sampleState (30 * second) (fun _ => true) (fun _ => false)).2.1 "a1b2"
      { Key := "a1b2", Filename := "Book.epub", Path := "uploads/a1b2_Book.epub",
        Converted := false, CreatedAt := 0, LastSeen := 0 } (by decide) (by decide),
    (cleanupTick_spec sampleState (31 * second) (fun _ => true) (fun _ => false)).2.2.1 "zzzz"
      (by decide)⟩


/-! ## Store and files in lockstep -/

/-- C2 (the code at the failing input). After an upload of `one.epub` and then
of `two.epub` under the same key `a1b2`, with every file operation succeeding,
the file of the first upload is still present although no entry of the store has
it as its `Path`: the store holds the second entry only. -/
theorem reupload_leaves_orphan_file :
    (run State.empty reuploadRun).files.lookup "uploads/a1b2_one.epub" = some [80, 75, 3, 4] ∧
    (∀ kv ∈ (run State.empty reuploadRun).store.entries, kv.2.Path ≠ "uploads/a1b2_one.epub") ∧
    (run State.empty reuploadRun).store.keys = ["a1b2"] ∧
    (run State.empty reuploadRun).files.keys =
      ["uploads/a1b2_two.epub", "uploads/a1b2_one.epub"] := by
  decide

/-! ## Lifetime of a refreshed entry -/

/-- C9 (the code at the failing interleaving). A tick at 31s visits an entry
created and last seen at 0: the sweeper reads the timestamps under the mutex and
releases it; the touch then finds the entry and sets `LastSeen` to 31s; the
sweeper compares the values it read before and evicts.  Both threads have
finished, the touch found the entry and refreshed it to a time within 30s of the
tick, the entry is younger than 1h, and yet the entry is gone from the store
and its file is removed. -/
theorem touch_lost_to_sweeper :
    ∃ c, runSchedule (31 * second) (31 * second) raceStart raceSchedule = some c ∧
      c.touch = .done ∧ c.sweep = .done ∧ c.found = true ∧
      c.mem.lastSeen = 31 * second ∧ 31 * second - c.mem.lastSeen ≤ 30 * second ∧
      31 * second - c.mem.createdAt ≤ 3600 * second ∧
      c.mem.inStore = false ∧ c.mem.fileExists = false :=
  ⟨⟨⟨false, false, 0, 31 * second, false⟩, .done, true, .done, 0, 0⟩, by decide⟩

end Epub2Kobo
